import Mathlib

/-!
Verification development for `immichsync.py`, a client-side script that
groups externally scanned assets of an Immich server into albums, either by
containing folder or by library, and reconciles a persisted bin-key → album-id
mapping against the server's album list across runs.

The definitions below are a shallow embedding of the script.  Pure fragments
become Lean functions on the same data; the global mutable state of the script
(the evolving `json_output` table and the remote server) is threaded
explicitly.  The remote Immich API — an external collaborator that the script
only calls — is abstracted as a record of operations (`Remote`); an ideal,
always-succeeding instance (`idealRemote`) modelled from the spec's §6
interface description is used for whole-run theorems.
-/

set_option autoImplicit false

namespace ImmichSync

/-! ### Paths

`pathlib.Path` values are modelled as their list of components below the
root (so `/pics/trip` is `["pics", "trip"]`).  Python `Path` equality on
absolute paths is component-list equality. -/

/-- A filesystem path as its component list (absolute, root = `[]`). -/
abbrev FsPath := List String

/-- `Path.parent`: drop the last component (`parent` of the root is the root,
which `List.dropLast` on `[]` also yields). -/
def parentDir (p : FsPath) : FsPath := p.dropLast

/-- `Path.parents`: every proper ancestor of `p`, i.e. every proper
initial segment of its component list (including the root `[]`). -/
def ancestors (p : FsPath) : List FsPath :=
  (List.range p.length).map (fun n => p.take n)

/-- `str(Path)` for an absolute path. -/
def pathStr (p : FsPath) : String :=
  "/" ++ String.intercalate "/" p

/-- `PurePath.stem` on a single name, on the character list: with `i` the
index of the last `'.'`, the name is truncated at `i` when `0 < i < len - 1`,
otherwise returned whole.  Working from the reversed list, the first index
`j` of `'.'` corresponds to `i = len - 1 - j`. -/
def pyStemList (name : List Char) : List Char :=
  match name.reverse.findIdx? (fun c => c = '.') with
  | none => name
  | some j =>
    if 0 < j && j < name.length - 1 then name.take (name.length - 1 - j)
    else name

/-- `Path.stem` of a path: the stem of its last component (empty for the
root, as in Python where `Path("/").stem = ""`). -/
def pathStem (p : FsPath) : String :=
  match p.getLast? with
  | some name => String.mk (pyStemList name.data)
  | none => ""

/-! ### Skip paths and the classifier -/

/-- The two partitions built from `--skip-paths`: entries whose final
component is `*` contribute their parent to `recursive`, the rest go to
`direct` (lines 179–184 of the script). -/
structure SkipPaths where
  direct : List FsPath
  recursive : List FsPath
deriving DecidableEq

/-- One asset record as returned by `GET /asset`: remote id, owning library
id, and original path (already split into components). -/
structure Asset where
  id : String
  libraryId : String
  originalPath : FsPath
deriving DecidableEq

/-- The per-asset filter shared by both classifier loops (lines 270–277 and
313–320): the asset's library must be in the active filter, its containing
folder must not be a direct skip entry, and no proper ancestor of that
folder may be a recursive skip entry. -/
def keptAsset (filt : List String) (sp : SkipPaths) (a : Asset) : Bool :=
  filt.contains a.libraryId &&
    !(sp.direct.contains (parentDir a.originalPath) ||
      (ancestors (parentDir a.originalPath)).any (fun q => sp.recursive.contains q))

/-- Insert an asset id into the folder-keyed bin table
(`folder_assets[path].add(asset["id"])` with get-or-insert-default),
preserving dict insertion order and set semantics on the ids. -/
def insertBin (m : List (FsPath × List String)) (k : FsPath) (v : String) :
    List (FsPath × List String) :=
  match m with
  | [] => [(k, [v])]
  | (k', vs) :: rest =>
    if k' = k then (k', if v ∈ vs then vs else vs ++ [v]) :: rest
    else (k', vs) :: insertBin rest k v

/-- Folder-mode classifier (lines 265–285): group kept assets by the parent
folder of their original path. -/
def folderBins (assets : List Asset) (filt : List String) (sp : SkipPaths) :
    List (FsPath × List String) :=
  assets.foldl
    (fun m a => if keptAsset filt sp a then insertBin m (parentDir a.originalPath) a.id else m)
    []

/-- The per-library entry of `name_assets`: the `"paths"` set (collected but
never read afterwards) and the `"ids"` set. -/
structure LibEntry where
  paths : List FsPath
  ids : List String
deriving DecidableEq

/-- Insert one kept asset into the library-keyed table (lines 323–329). -/
def insertLib (m : List (String × LibEntry)) (k : String) (p : FsPath) (v : String) :
    List (String × LibEntry) :=
  match m with
  | [] => [(k, ⟨[p], [v]⟩)]
  | (k', e) :: rest =>
    if k' = k then
      (k', ⟨if p ∈ e.paths then e.paths else e.paths ++ [p],
            if v ∈ e.ids then e.ids else e.ids ++ [v]⟩) :: rest
    else (k', e) :: insertLib rest k p v

/-- Library-mode classifier (lines 308–329): group kept assets by library id,
recording both the folder set and the id set. -/
def libraryBins (assets : List Asset) (filt : List String) (sp : SkipPaths) :
    List (String × LibEntry) :=
  assets.foldl
    (fun m a =>
      if keptAsset filt sp a then insertLib m a.libraryId (parentDir a.originalPath) a.id
      else m)
    []

/-- One library record from `GET /library`. -/
structure Library where
  id : String
  name : String
deriving DecidableEq

/-- Library-mode album label: `next((l["name"] for l in libraries if l["id"] == lib_id), "")`. -/
def libraryLabel (libraries : List Library) (libId : String) : String :=
  match libraries.find? (fun l => l.id = libId) with
  | some l => l.name
  | none => ""

/-- A bin as consumed by the reconcile loop: the persisted-mapping key, the
album label, and the computed member asset-id set. -/
structure Bin where
  updateKey : String
  albumName : String
  assetIds : List String
deriving DecidableEq

/-- Folder-mode bins as handed to the reconcile loop (lines 287–290):
key `str(path)`, label `path.stem`, members the folder's asset-id set. -/
def folderModeBins (assets : List Asset) (filt : List String) (sp : SkipPaths) :
    List Bin :=
  (folderBins assets filt sp).map (fun kv => ⟨pathStr kv.1, pathStem kv.1, kv.2⟩)

/-- Library-mode bins as handed to the reconcile loop (lines 331–334):
key the library id, label the library's display name, members the id set. -/
def libraryModeBins (assets : List Asset) (libraries : List Library)
    (filt : List String) (sp : SkipPaths) : List Bin :=
  (libraryBins assets filt sp).map (fun kv => ⟨kv.1, libraryLabel libraries kv.1, kv.2.ids⟩)

/-! ### The persisted mapping store

Remote album ids are opaque tokens compared only for equality; they are
modelled as `Nat`.  A value stored under a bin key in `json_output` is either
a real album id or the empty-object placeholder `{}` that line 291
(`json_output[update_key] = {}`) installs for every processed bin. -/

/-- A value of the `json_output` table: the `{}` placeholder or an album id. -/
inductive MapVal where
  | emptyObj
  | albumId (i : Nat)
deriving DecidableEq

/-- A bin-key → value table with Python-dict semantics (insertion order,
single binding per key). -/
abbrev Table := List (String × MapVal)

/-- Dict lookup. -/
def lookupKey : Table → String → Option MapVal
  | [], _ => none
  | kv :: rest, k => if kv.1 = k then some kv.2 else lookupKey rest k

/-- Dict assignment `t[k] = v`: overwrite the binding if present, else append. -/
def setKey (t : Table) (k : String) (v : MapVal) : Table :=
  match t with
  | [] => [(k, v)]
  | kv :: rest => if kv.1 = k then (k, v) :: rest else kv :: setKey rest k v

/-- Dict deletion, used only to state that a stale entry behaves like a
missing one. -/
def eraseKey (t : Table) (k : String) : Table :=
  t.filter (fun kv => kv.1 ≠ k)

/-- The raw persisted JSON document: its two recognised top-level tables
(`folder_layout`, `name_layout`), each possibly missing. -/
structure RawDoc where
  folder_layout : Option Table
  name_layout : Option Table
deriving DecidableEq

/-- What the script finds at the `--json` path. -/
inductive FileState where
  | absent
  | malformed
  | doc (d : RawDoc)
deriving DecidableEq

/-- Outcome of the mapping-load prologue (lines 134–143). -/
inductive LoadResult where
  | ok (raw : Option RawDoc) (folderTbl : Option Table) (nameTbl : Option Table)
  | fatalExit (msg : String)
  | crash
deriving DecidableEq

/-- The mapping-load prologue (lines 134–143): with no `--json` path the
store is inert; an existing file is parsed with `json.load` — an unparsable
file raises an uncaught `JSONDecodeError` (`crash`); an absent file whose
parent directory is also absent is `sys.exit`; an absent file with an
existing parent leaves both tables unloaded. -/
def loadMapping (jsonConfigured : Bool) (parentExists : Bool) (fs : FileState) :
    LoadResult :=
  if !jsonConfigured then .ok none none none
  else
    match fs with
    | .doc d => .ok (some d) d.folder_layout d.name_layout
    | .malformed => .crash
    | .absent =>
      if !parentExists then .fatalExit "The given json path is invalid."
      else .ok none none none

/-- The mapping-save epilogue (lines 352–364): reuse the raw document loaded
at startup (or an empty one), overwrite only the active-mode key with this
run's `json_output`, and write the result back. -/
def saveMapping (loadedRaw : Option RawDoc) (folderLayout : Bool) (output : Table) :
    RawDoc :=
  let d := match loadedRaw with
    | some d => d
    | none => ⟨none, none⟩
  if folderLayout then { d with folder_layout := some output }
  else { d with name_layout := some output }

/-! ### The remote album service boundary -/

/-- An HTTP response: `ok` with the decoded payload, or a non-2xx status
with the server-provided message. -/
inductive Resp (α : Type) where
  | ok (val : α)
  | err (status : Nat) (msg : String)
deriving DecidableEq

/-- A remote write/read call issued by the reconciler, with its arguments. -/
inductive Request where
  | createAlbum (name : String) (assetIds : List String)
  | getAlbum (albumId : Nat)
  | removeAssets (albumId : Nat) (assetIds : List String)
  | addAssets (albumId : Nat) (assetIds : List String)
deriving DecidableEq

/-- One line of per-bin console output, mirroring the script's `print`s. -/
inductive Report where
  | createdAlbum (name : String) (count : Nat)
  | createFailed (name : String) (status : Nat) (msg : String)
  | alreadyExistsName (name : String)
  | alreadyExistsId (name : String)
  | upToDate (name : String)
  | addedAssets (count : Nat) (name : String)
  | updateFailed (name : String) (status : Nat) (msg : String)
  | cleanFetchFailed (name : String) (status : Nat) (msg : String)
  | clearedAssets (count : Nat) (name : String)
deriving DecidableEq

/-- The remote album service as a state machine over server states `σ`:
each operation transforms the state and yields a response.  The script only
consumes this interface (spec §6); concrete instances below model an ideal
server and a failing one. -/
structure Remote (σ : Type) where
  createAlbum : σ → String → List String → σ × Resp Nat
  getAlbum : σ → Nat → σ × Resp (List String)
  removeAssets : σ → Nat → List String → σ × Resp (List Bool)
  addAssets : σ → Nat → List String → σ × Resp (List Bool)

/-- The resolved configuration the reconciler reads
(`args.json is not None`, `args.clean_update`, `args.skip_existing`). -/
structure Args where
  jsonConfigured : Bool
  cleanUpdate : Bool
  skipExisting : Bool
deriving DecidableEq

/-- Result of one of the three per-bin helper calls: new server state,
requests issued, console reports produced. -/
structure StepResult (σ : Type) where
  state : σ
  requests : List Request
  reports : List Report

/-- `create_album`'s result additionally carries the album id to record in
`json_output` (when the create succeeded and `--json` is configured). -/
structure CreateResult (σ : Type) where
  state : σ
  requests : List Request
  reports : List Report
  newId : Option Nat

/-- `create_album` (lines 187–204): with `--skip-existing` and no `--json`,
a remote album with the same label suppresses the create; otherwise POST the
label and member set; on success record the returned id iff `--json` is
configured; on failure report the status and message. -/
def createAlbumFn {σ : Type} (R : Remote σ) (args : Args) (albumNames0 : List String)
    (albumName : String) (assetIds : List String) (s : σ) : CreateResult σ :=
  if args.skipExisting && !args.jsonConfigured && albumNames0.contains albumName then
    ⟨s, [], [.alreadyExistsName albumName], none⟩
  else
    match R.createAlbum s albumName assetIds with
    | (s', .ok newId) =>
      ⟨s', [.createAlbum albumName assetIds], [.createdAlbum albumName assetIds.length],
        if args.jsonConfigured then some newId else none⟩
    | (s', .err status msg) =>
      ⟨s', [.createAlbum albumName assetIds], [.createFailed albumName status msg], none⟩

/-- `update_album` (lines 206–233): with `--skip-existing` and the bound id
among the run-start album ids, skip; otherwise PUT the full member set and
count per-member successes, reporting "already up to date" on zero. -/
def updateAlbumFn {σ : Type} (R : Remote σ) (args : Args) (albumIds0 : List Nat)
    (albumName : String) (assetIds : List String) (albumId : Nat) (s : σ) :
    StepResult σ :=
  if args.skipExisting && albumIds0.contains albumId then
    ⟨s, [], [.alreadyExistsId albumName]⟩
  else
    match R.addAssets s albumId assetIds with
    | (s', .ok flags) =>
      let count := flags.count true
      if count = 0 then ⟨s', [.addAssets albumId assetIds], [.upToDate albumName]⟩
      else ⟨s', [.addAssets albumId assetIds], [.addedAssets count albumName]⟩
    | (s', .err status msg) =>
      ⟨s', [.addAssets albumId assetIds], [.updateFailed albumName status msg]⟩

/-- The removal set computed by `clean_album` (lines 240–241):
`set(current member ids) − computed member set`.  A Python set is a
duplicate-free collection, hence the `dedup`. -/
def removalAssets (current computed : List String) : List String :=
  current.dedup.filter (fun a => a ∉ computed)

/-- `clean_album` (lines 236–259): GET the album's members; on failure
report and return (no removal attempted); on success DELETE exactly the
removal set — unconditionally, with no emptiness test — and report a count
only when at least one member was removed; a failed DELETE is silent. -/
def cleanAlbumFn {σ : Type} (R : Remote σ) (albumName : String)
    (assetIds : List String) (albumId : Nat) (s : σ) : StepResult σ :=
  match R.getAlbum s albumId with
  | (s1, .err status msg) =>
    ⟨s1, [.getAlbum albumId], [.cleanFetchFailed albumName status msg]⟩
  | (s1, .ok current) =>
    let removal := removalAssets current assetIds
    match R.removeAssets s1 albumId removal with
    | (s2, .ok flags) =>
      let count := flags.count true
      if count = 0 then ⟨s2, [.getAlbum albumId, .removeAssets albumId removal], []⟩
      else ⟨s2, [.getAlbum albumId, .removeAssets albumId removal],
            [.clearedAssets count albumName]⟩
    | (s2, .err _ _) =>
      ⟨s2, [.getAlbum albumId, .removeAssets albumId removal], []⟩

/-- The mapping lookup at the head of each reconcile-loop iteration (lines
293–299 / 337–343): a bin is *bound* to `aid` when the loaded table holds an
album id for its key and that id is among the album ids fetched at run
start.  A `{}` placeholder value fails the `album_id in album_ids` test like
any stale id. -/
def binBound (loaded : Option Table) (albumIds0 : List Nat) (b : Bin) : Option Nat :=
  match loaded with
  | none => none
  | some tbl =>
    match lookupKey tbl b.updateKey with
    | some (.albumId aid) => if aid ∈ albumIds0 then some aid else none
    | _ => none

/-- Result of processing bins: final server state, final `json_output`
table, all requests issued, all reports printed. -/
structure BinResult (σ : Type) where
  state : σ
  table : Table
  requests : List Request
  reports : List Report

/-- One reconcile-loop iteration (lines 287–306, and the textually identical
lines 331–350): install the `{}` placeholder for the key; if the bin is
bound, run the optional clean, record the album id (before the update call),
then update; otherwise fall through to `create_album`. -/
def processBin {σ : Type} (R : Remote σ) (args : Args) (loaded : Option Table)
    (albumIds0 : List Nat) (albumNames0 : List String)
    (s : σ) (out : Table) (b : Bin) : BinResult σ :=
  let out1 := setKey out b.updateKey .emptyObj
  match binBound loaded albumIds0 b with
  | some aid =>
    let c := if args.cleanUpdate then cleanAlbumFn R b.albumName b.assetIds aid s
             else ⟨s, [], []⟩
    let out2 := setKey out1 b.updateKey (.albumId aid)
    let u := updateAlbumFn R args albumIds0 b.albumName b.assetIds aid c.state
    ⟨u.state, out2, c.requests ++ u.requests, c.reports ++ u.reports⟩
  | none =>
    let cr := createAlbumFn R args albumNames0 b.albumName b.assetIds s
    let out2 := match cr.newId with
      | some i => setKey out1 b.updateKey (.albumId i)
      | none => out1
    ⟨cr.state, out2, cr.requests, cr.reports⟩

/-- Fold step of the reconcile loop, accumulating requests and reports. -/
def stepFold {σ : Type} (R : Remote σ) (args : Args) (loaded : Option Table)
    (albumIds0 : List Nat) (albumNames0 : List String)
    (acc : BinResult σ) (b : Bin) : BinResult σ :=
  let r := processBin R args loaded albumIds0 albumNames0 acc.state acc.table b
  ⟨r.state, r.table, acc.requests ++ r.requests, acc.reports ++ r.reports⟩

/-- The reconcile loop over a bin list from a given accumulator. -/
def runAccum {σ : Type} (R : Remote σ) (args : Args) (loaded : Option Table)
    (albumIds0 : List Nat) (albumNames0 : List String) :
    BinResult σ → List Bin → BinResult σ
  | acc, [] => acc
  | acc, b :: rest =>
    runAccum R args loaded albumIds0 albumNames0
      (stepFold R args loaded albumIds0 albumNames0 acc b) rest

/-- A whole reconcile pass: `json_output` starts as a copy of the loaded
active-mode table when one was loaded (lines 267–268 / 310–311), else empty,
and every bin is processed in order. -/
def runReconcile {σ : Type} (R : Remote σ) (args : Args) (loaded : Option Table)
    (albumIds0 : List Nat) (albumNames0 : List String) (bins : List Bin) (s0 : σ) :
    BinResult σ :=
  runAccum R args loaded albumIds0 albumNames0
    ⟨s0, (match loaded with | some t => t | none => []), [], []⟩ bins

/-! ### An ideal remote server

Modelled from the spec: §6 describes the consumed album endpoints
(`create album`, `fetch album detail`, `add members`, `remove members` with
per-member success flags), and claim C2 fixes the add-members semantics —
re-adding an existing member is a per-member no-op.  `idealRemote` realises
that interface with every call succeeding; album ids are opaque `Nat`
tokens and member sets are duplicate-free lists. -/

/-- One remote album: id, display name, member asset ids (a set, kept as a
duplicate-free list). -/
structure Album where
  id : Nat
  name : String
  assetIds : List String
deriving DecidableEq

/-- The ideal server's state: its album list. -/
structure Server where
  albums : List Album
deriving DecidableEq

/-- The album ids the server would report (the script reads them once at
run start into `album_ids`). -/
def albumIds (s : Server) : List Nat := s.albums.map Album.id

/-- The album names the server would report (`album_names`). -/
def albumNames (s : Server) : List String := s.albums.map Album.name

/-- Locate an album by id. -/
def findAlbum (s : Server) (i : Nat) : Option Album :=
  s.albums.find? (fun a => a.id = i)

/-- Member list of album `i` (empty when the album does not exist). -/
def memberSet (s : Server) (i : Nat) : List String :=
  match findAlbum s i with
  | some a => a.assetIds
  | none => []

/-- A fresh album id: one more than the largest id in use. -/
def freshId (s : Server) : Nat :=
  (s.albums.map Album.id).foldr max 0 + 1

/-- Set insertion on a duplicate-free list. -/
def insertNew (l : List String) (x : String) : List String :=
  if x ∈ l then l else l ++ [x]

/-- Insert every element of `xs` (the server's add-members effect). -/
def addAllNew : List String → List String → List String
  | ms, [] => ms
  | ms, x :: xs => addAllNew (insertNew ms x) xs

/-- Per-member success flags of an add-members call: a member succeeds iff
it was not yet present when processed in order. -/
def addFlags : List String → List String → List Bool
  | _, [] => []
  | ms, x :: xs => (decide (x ∉ ms)) :: addFlags (insertNew ms x) xs

/-- Rewrite album `i`'s member list through `f`, leaving every other album
untouched. -/
def setMembers (s : Server) (i : Nat) (f : List String → List String) : Server :=
  ⟨s.albums.map (fun al => if al.id = i then ⟨al.id, al.name, f al.assetIds⟩ else al)⟩

/-- The ideal remote: every call succeeds and behaves as spec §6 describes,
with re-added members reported as per-member no-ops. -/
def idealRemote : Remote Server where
  createAlbum s name ids :=
    (⟨s.albums ++ [⟨freshId s, name, addAllNew [] ids⟩]⟩, .ok (freshId s))
  getAlbum s i :=
    match findAlbum s i with
    | some a => (s, .ok a.assetIds)
    | none => (s, .err 400 "Not found")
  removeAssets s i ids :=
    match findAlbum s i with
    | some a =>
      (setMembers s i (fun ms => ms.filter (fun x => x ∉ ids)),
       .ok (ids.map (fun x => a.assetIds.contains x)))
    | none => (s, .err 400 "Not found")
  addAssets s i ids :=
    match findAlbum s i with
    | some a => (setMembers s i (fun ms => addAllNew ms ids), .ok (addFlags a.assetIds ids))
    | none => (s, .err 400 "Not found")

/-- A run of the script proper against the ideal server: `album_ids` and
`album_names` are read from the server once, before the loop. -/
def runIdeal (args : Args) (loaded : Option Table) (bins : List Bin) (s0 : Server) :
    BinResult Server :=
  runReconcile idealRemote args loaded (albumIds s0) (albumNames s0) bins s0

/-- A server on which every write call fails with a 500, used to observe the
script's failure handling. -/
def failingRemote : Remote Unit where
  createAlbum s _ _ := (s, .err 500 "Internal server error")
  getAlbum s _ := (s, .err 500 "Internal server error")
  removeAssets s _ _ := (s, .err 500 "Internal server error")
  addAssets s _ _ := (s, .err 500 "Internal server error")

/-- Is this report the successful-creation message? -/
def Report.isCreated : Report → Bool
  | .createdAlbum _ _ => true
  | _ => false

/-- Is this report the "Added N assets" message? -/
def Report.isAdded : Report → Bool
  | .addedAssets _ _ => true
  | _ => false

/-- A report that signals no membership change at all: "already exists"
(skip) or "already up to date" (zero per-member successes). -/
def Report.isQuiet : Report → Bool
  | .alreadyExistsId _ => true
  | .upToDate _ => true
  | _ => false

/-- Did the load prologue complete normally? -/
def LoadResult.isOk : LoadResult → Bool
  | .ok _ _ _ => true
  | _ => false

/-! ### Table lemmas -/

theorem lookupKey_setKey_self (t : Table) (k : String) (v : MapVal) :
    lookupKey (setKey t k v) k = some v := by
  induction t with
  | nil => simp [setKey, lookupKey]
  | cons kv rest ih =>
    by_cases h : kv.1 = k
    · simp [setKey, h, lookupKey]
    · simp [setKey, h, lookupKey, ih]

theorem lookupKey_setKey_ne (t : Table) (k k' : String) (v : MapVal) (h : k' ≠ k) :
    lookupKey (setKey t k v) k' = lookupKey t k' := by
  induction t with
  | nil => simp [setKey, lookupKey, Ne.symm h]
  | cons kv rest ih =>
    by_cases hkv : kv.1 = k
    · have hne : kv.1 ≠ k' := fun hc => h (hc.symm.trans hkv)
      simp [setKey, hkv, lookupKey, Ne.symm h, hne]
    · simp only [setKey, if_neg hkv, lookupKey]
      by_cases hkv' : kv.1 = k'
      · simp [hkv']
      · simp [hkv', ih]

theorem lookupKey_eraseKey_self (t : Table) (k : String) :
    lookupKey (eraseKey t k) k = none := by
  induction t with
  | nil => simp [eraseKey, lookupKey]
  | cons kv rest ih =>
    by_cases h : kv.1 = k
    · simpa [eraseKey, h] using ih
    · simpa [eraseKey, h, lookupKey] using ih

/-! ### Claim theorems: mapping store (C8, C9) -/

/-- C9: on save, only the sub-table of the active layout mode is overwritten
in the previously loaded raw document; the sub-table of the other layout
mode is written back unchanged. -/
theorem save_overwrites_only_active_mode (d : RawDoc) (out : Table) :
    (saveMapping (some d) true out).name_layout = d.name_layout ∧
    (saveMapping (some d) false out).folder_layout = d.folder_layout ∧
    (saveMapping (some d) true out).folder_layout = some out ∧
    (saveMapping (some d) false out).name_layout = some out ∧
    (saveMapping none true out).name_layout = none ∧
    (saveMapping none false out).folder_layout = none :=
  ⟨rfl, rfl, rfl, rfl, rfl, rfl⟩

/-- C8 counterexample: a file that exists but cannot be parsed does not
yield an empty mapping table — `json.load` raises an uncaught exception and
the run aborts. -/
theorem malformed_mapping_file_crashes :
    loadMapping true true .malformed = .crash ∧
    (loadMapping true true .malformed).isOk = false := by
  exact ⟨rfl, rfl⟩

/-- C8 amended: an absent mapping file with an existing parent directory
yields no loaded tables (hence empty mappings); an absent file whose parent
directory is also missing is a fatal configuration error; a file that
exists but is not valid JSON crashes the run; a well-formed document loads
exactly its two layout tables (each possibly missing, hence empty). -/
theorem load_mapping_outcomes :
    (∀ pe : Bool, loadMapping true pe .malformed = .crash) ∧
    loadMapping true true .absent = .ok none none none ∧
    loadMapping true false .absent = .fatalExit "The given json path is invalid." ∧
    (∀ d : RawDoc, loadMapping true true (.doc d) = .ok (some d) d.folder_layout d.name_layout) ∧
    (∀ pe fs, loadMapping false pe fs = .ok none none none) :=
  ⟨fun _ => rfl, rfl, rfl, fun _ => rfl, fun _ _ => rfl⟩

/-! ### Claim theorems: clean mode (C4, C5) -/

/-- C4: after a successful fetch, the removal request of clean mode carries
exactly the album's current members minus the freshly computed member set;
in particular it never contains an id of the computed member set. -/
theorem clean_removal_excludes_computed_members {σ : Type} (R : Remote σ) (s s' : σ)
    (name : String) (aid : Nat) (current computed : List String)
    (hget : R.getAlbum s aid = (s', .ok current)) :
    (cleanAlbumFn R name computed aid s).requests
        = [.getAlbum aid, .removeAssets aid (removalAssets current computed)] ∧
    (∀ x ∈ computed, x ∉ removalAssets current computed) ∧
    (∀ x, x ∈ removalAssets current computed ↔ x ∈ current ∧ x ∉ computed) := by
  refine ⟨?_, ?_, ?_⟩
  · rcases h2 : R.removeAssets s' aid (removalAssets current computed) with ⟨s2, resp⟩
    cases resp with
    | ok flags => by_cases hc : flags.count true = 0 <;>
        simp [cleanAlbumFn, hget, h2, hc]
    | err st msg => simp [cleanAlbumFn, hget, h2]
  · intro x hx
    simp [removalAssets, List.mem_filter, hx]
  · intro x
    simp [removalAssets, List.mem_filter, List.mem_dedup]

/-- C4 witness. -/
theorem clean_removal_excludes_computed_members_witness :
    (cleanAlbumFn idealRemote "A" ["y", "z"] 1 ⟨[⟨1, "A", ["x", "y"]⟩]⟩).requests
        = [.getAlbum 1, .removeAssets 1 (removalAssets ["x", "y"] ["y", "z"])] ∧
    (∀ x ∈ ["y", "z"], x ∉ removalAssets ["x", "y"] ["y", "z"]) ∧
    (∀ x, x ∈ removalAssets ["x", "y"] ["y", "z"] ↔ x ∈ ["x", "y"] ∧ x ∉ ["y", "z"]) :=
  clean_removal_excludes_computed_members idealRemote _ _ "A" 1 ["x", "y"] ["y", "z"] rfl

/-- C5 counterexample: with the album's current members a subset of the
computed member set the difference is empty, yet a removal request (with an
empty id list) is still sent — the script has no emptiness test before the
DELETE call. -/
theorem clean_empty_diff_still_issues_removal :
    removalAssets ["x"] ["x"] = [] ∧
    Request.removeAssets 1 [] ∈ (cleanAlbumFn idealRemote "A" ["x"] 1 ⟨[⟨1, "A", ["x"]⟩]⟩).requests := by
  exact ⟨rfl, by decide⟩

/-- C5 amended: after a successful fetch of a bound album's member list, a
removal request is always issued, carrying exactly the computed set
difference (current members minus this run's computed member set) — also
when that difference is empty. -/
theorem clean_always_issues_removal_request {σ : Type} (R : Remote σ) (s s' : σ)
    (name : String) (aid : Nat) (current computed : List String)
    (hget : R.getAlbum s aid = (s', .ok current)) :
    Request.removeAssets aid (removalAssets current computed)
        ∈ (cleanAlbumFn R name computed aid s).requests ∧
    (removalAssets current computed = [] ↔ ∀ x ∈ current, x ∈ computed) := by
  constructor
  · rcases h2 : R.removeAssets s' aid (removalAssets current computed) with ⟨s2, resp⟩
    cases resp with
    | ok flags => by_cases hc : flags.count true = 0 <;>
        simp [cleanAlbumFn, hget, h2, hc]
    | err st msg => simp [cleanAlbumFn, hget, h2]
  · simp [removalAssets, List.filter_eq_nil_iff, List.mem_dedup]

/-- C5 amended witness. -/
theorem clean_always_issues_removal_request_witness :
    Request.removeAssets 2 (removalAssets ["x"] ["x", "y"])
        ∈ (cleanAlbumFn idealRemote "B" ["x", "y"] 2 ⟨[⟨2, "B", ["x"]⟩]⟩).requests ∧
    (removalAssets ["x"] ["x", "y"] = [] ↔ ∀ x ∈ ["x"], x ∈ ["x", "y"]) :=
  clean_always_issues_removal_request idealRemote _ _ "B" 2 ["x"] ["x", "y"] rfl

/-! ### Claim theorems: folder-mode labels (C7) -/

/-- C7 counterexample: for a folder whose name contains an interior dot the
album label is `path.stem`, which strips the dot-suffix — `"2020"`, not the
base name `"2020.summer"`. -/
theorem folder_label_strips_dot_suffix :
    folderModeBins [⟨"a1", "L1", ["pics", "2020.summer", "img.jpg"]⟩] ["L1"] ⟨[], []⟩
        = [⟨"/pics/2020.summer", "2020", ["a1"]⟩] ∧
    ("2020" : String) ≠ "2020.summer" := by
  exact ⟨rfl, by decide⟩

/-- C7 amended: in folder mode every bin's album label is `Path.stem` of the
bin's folder — an initial segment of the folder's base name, equal to the
full base name whenever the stem computation finds no interior dot. -/
theorem folder_label_is_stem_of_basename :
    (∀ (assets : List Asset) (filt : List String) (sp : SkipPaths) (b : Bin),
        b ∈ folderModeBins assets filt sp →
        ∃ kv ∈ folderBins assets filt sp,
          b.updateKey = pathStr kv.1 ∧ b.albumName = pathStem kv.1) ∧
    (∀ name : List Char, ∃ rest, name = pyStemList name ++ rest) ∧
    (∀ name : List Char,
        name.reverse.findIdx? (fun c => c = '.') = none → pyStemList name = name) := by
  refine ⟨?_, ?_, ?_⟩
  · intro assets filt sp b hb
    simp only [folderModeBins, List.mem_map] at hb
    obtain ⟨kv, hkv, hmap⟩ := hb
    exact ⟨kv, hkv, by simp [← hmap], by simp [← hmap]⟩
  · intro name
    unfold pyStemList
    cases h : name.reverse.findIdx? (fun c => c = '.') with
    | none => exact ⟨[], by simp⟩
    | some j =>
      by_cases hj : 0 < j && j < name.length - 1
      · exact ⟨name.drop (name.length - 1 - j), by simp [hj]⟩
      · exact ⟨[], by simp [hj]⟩
  · intro name h
    unfold pyStemList
    simp [h]

/-- C7 amended witness. -/
theorem folder_label_is_stem_of_basename_witness :
    (∃ kv ∈ folderBins [⟨"a1", "L1", ["pics", "trip", "img.jpg"]⟩] ["L1"] ⟨[], []⟩,
        ("/pics/trip" : String) = pathStr kv.1 ∧ ("trip" : String) = pathStem kv.1) ∧
    (∃ rest, ("2020.summer".data : List Char) = pyStemList "2020.summer".data ++ rest) ∧
    pyStemList "trip".data = "trip".data := by
  refine ⟨?_, ?_, ?_⟩
  · exact folder_label_is_stem_of_basename.1 _ _ _ ⟨"/pics/trip", "trip", ["a1"]⟩ (by decide)
  · exact folder_label_is_stem_of_basename.2.1 "2020.summer".data
  · exact folder_label_is_stem_of_basename.2.2 "trip".data (by decide)

/-! ### Claim theorems: reconcile loop (C10, C1, C6) -/

/-- C10: a bin that resolves as bound has its album id written into the
output mapping before the update call is made — for any remote behaviour,
so also when skip-existing suppresses the update or the add-assets request
fails. -/
theorem bound_bin_recorded_before_update {σ : Type} (R : Remote σ) (args : Args)
    (loaded : Option Table) (ids0 : List Nat) (names0 : List String)
    (s : σ) (out : Table) (b : Bin) (aid : Nat)
    (hb : binBound loaded ids0 b = some aid) :
    lookupKey (processBin R args loaded ids0 names0 s out b).table b.updateKey
      = some (.albumId aid) := by
  simp only [processBin, hb]
  exact lookupKey_setKey_self _ _ _

/-- C10 witness: a bound bin keeps its mapping entry even when every remote
call fails. -/
theorem bound_bin_recorded_before_update_witness :
    lookupKey (processBin failingRemote ⟨true, true, false⟩ (some [("k", .albumId 7)])
        [7] [] () [] ⟨"k", "A", ["x"]⟩).table "k" = some (.albumId 7) :=
  bound_bin_recorded_before_update failingRemote _ _ _ _ _ _ _ 7 (by decide)

/-- C1: a mapping entry whose album id is absent from the album-id list
fetched at run start behaves exactly like a missing entry: the whole
per-bin outcome (server effect, output table, requests, reports) is the
same as with the entry deleted, falling through to the create/skip-existing
logic with no error. -/
theorem stale_entry_treated_as_missing {σ : Type} (R : Remote σ) (args : Args)
    (t : Table) (ids0 : List Nat) (names0 : List String)
    (s : σ) (out : Table) (b : Bin) (aid : Nat)
    (hstale : lookupKey t b.updateKey = some (.albumId aid))
    (habsent : aid ∉ ids0) :
    processBin R args (some t) ids0 names0 s out b
      = processBin R args (some (eraseKey t b.updateKey)) ids0 names0 s out b := by
  have h1 : binBound (some t) ids0 b = none := by
    simp [binBound, hstale, habsent]
  have h2 : binBound (some (eraseKey t b.updateKey)) ids0 b = none := by
    simp [binBound, lookupKey_eraseKey_self]
  simp [processBin, h1, h2]

/-- C1 witness. -/
theorem stale_entry_treated_as_missing_witness :
    processBin idealRemote ⟨true, false, false⟩ (some [("k", .albumId 9)]) [5] []
        (⟨[⟨5, "A", []⟩]⟩ : Server) [] ⟨"k", "A", ["x"]⟩
      = processBin idealRemote ⟨true, false, false⟩
          (some (eraseKey [("k", .albumId 9)] "k")) [5] []
          (⟨[⟨5, "A", []⟩]⟩ : Server) [] ⟨"k", "A", ["x"]⟩ :=
  stale_entry_treated_as_missing idealRemote _ _ _ _ _ _ _ 9 (by decide) (by decide)

/-- C6 counterexample: when the create call fails, the bin's entry is *not*
absent from the output mapping — line 291 installed the `{}` placeholder
for the key and it is saved with the document. -/
theorem create_failure_leaves_placeholder_not_absent :
    lookupKey (processBin failingRemote ⟨true, false, false⟩ (some []) [] [] () []
        ⟨"k", "A", ["x"]⟩).table "k" = some .emptyObj ∧
    lookupKey (processBin failingRemote ⟨true, false, false⟩ (some []) [] [] () []
        ⟨"k", "A", ["x"]⟩).table "k" ≠ none ∧
    Report.createFailed "A" 500 "Internal server error"
        ∈ (processBin failingRemote ⟨true, false, false⟩ (some []) [] [] () []
            ⟨"k", "A", ["x"]⟩).reports := by
  refine ⟨by decide, by decide, by decide⟩

/-- C6 amended: a failed create-album call is reported with the server's
status and message, the loop goes on to the remaining bins, and the bin's
key is left bound to the `{}` placeholder — present in the saved mapping
but not a valid album id, so the bin retries create on the next run.  (A
bound bin's failed update or clean keeps its album id recorded instead, per
the C10 theorem.) -/
theorem create_failure_reported_and_placeholder_entry {σ : Type} (R : Remote σ)
    (args : Args) (loaded : Option Table) (ids0 : List Nat) (names0 : List String)
    (s s' : σ) (out : Table) (b : Bin) (code : Nat) (msg : String)
    (rest : List Bin) (acc : BinResult σ)
    (hunbound : binBound loaded ids0 b = none)
    (hguard : (args.skipExisting && !args.jsonConfigured
        && names0.contains b.albumName) = false)
    (hresp : R.createAlbum s b.albumName b.assetIds = (s', .err code msg)) :
    (processBin R args loaded ids0 names0 s out b).reports
        = [.createFailed b.albumName code msg] ∧
    lookupKey (processBin R args loaded ids0 names0 s out b).table b.updateKey
        = some .emptyObj ∧
    runAccum R args loaded ids0 names0 acc (b :: rest)
        = runAccum R args loaded ids0 names0
            (stepFold R args loaded ids0 names0 acc b) rest := by
  have hguard' :
      ¬((args.skipExisting = true ∧ args.jsonConfigured = false) ∧ b.albumName ∈ names0) := by
    rintro ⟨⟨h1, h2⟩, h3⟩
    rw [h1, h2] at hguard
    simp at hguard
    exact hguard h3
  refine ⟨?_, ?_, rfl⟩
  · simp [processBin, hunbound, createAlbumFn, hguard', hresp]
  · simp [processBin, hunbound, createAlbumFn, hguard', hresp,
      lookupKey_setKey_self]

/-- C6 amended witness. -/
theorem create_failure_reported_and_placeholder_entry_witness :
    (processBin failingRemote ⟨true, false, false⟩ (some []) [] [] () []
        ⟨"k", "A", ["x"]⟩).reports
        = [.createFailed "A" 500 "Internal server error"] ∧
    lookupKey (processBin failingRemote ⟨true, false, false⟩ (some []) [] [] () []
        ⟨"k", "A", ["x"]⟩).table "k" = some .emptyObj ∧
    runAccum failingRemote ⟨true, false, false⟩ (some []) [] [] ⟨(), [], [], []⟩
        [⟨"k", "A", ["x"]⟩]
        = runAccum failingRemote ⟨true, false, false⟩ (some []) [] []
            (stepFold failingRemote ⟨true, false, false⟩ (some []) [] []
              ⟨(), [], [], []⟩ ⟨"k", "A", ["x"]⟩) [] :=
  create_failure_reported_and_placeholder_entry failingRemote _ _ _ _ _ _ _
    ⟨"k", "A", ["x"]⟩ 500 "Internal server error" [] _ (by decide) (by decide) rfl

/-! ### Claim theorems: classifier exclusion (C3) -/

theorem mem_insertBin_ids (k : FsPath) (v : String) :
    ∀ (m : List (FsPath × List String)) (kv : FsPath × List String) (x : String),
    kv ∈ insertBin m k v → x ∈ kv.2 →
    x = v ∨ ∃ kv' ∈ m, x ∈ kv'.2 := by
  intro m
  induction m with
  | nil =>
    intro kv x hkv hx
    simp only [insertBin, List.mem_singleton] at hkv
    subst hkv
    simp at hx
    exact Or.inl hx
  | cons hd rest ih =>
    intro kv x hkv hx
    by_cases hk : hd.1 = k
    · simp only [insertBin] at hkv
      rw [if_pos hk] at hkv
      simp only [List.mem_cons] at hkv
      rcases hkv with hkv | hkv
      · subst hkv
        simp only at hx
        by_cases hv : v ∈ hd.2
        · rw [if_pos hv] at hx
          exact Or.inr ⟨hd, List.mem_cons_self _ _, hx⟩
        · rw [if_neg hv, List.mem_append] at hx
          rcases hx with hx | hx
          · exact Or.inr ⟨hd, List.mem_cons_self _ _, hx⟩
          · simp at hx
            exact Or.inl hx
      · exact Or.inr ⟨kv, List.mem_cons_of_mem _ hkv, hx⟩
    · simp only [insertBin] at hkv
      rw [if_neg hk] at hkv
      simp only [List.mem_cons] at hkv
      rcases hkv with hkv | hkv
      · subst hkv
        exact Or.inr ⟨hd, List.mem_cons_self _ _, hx⟩
      · rcases ih kv x hkv hx with h | ⟨kv', hkv', hx'⟩
        · exact Or.inl h
        · exact Or.inr ⟨kv', List.mem_cons_of_mem _ hkv', hx'⟩

theorem mem_folderBins_aux (filt : List String) (sp : SkipPaths) :
    ∀ (assets : List Asset) (m : List (FsPath × List String))
      (kv : FsPath × List String) (x : String),
      kv ∈ assets.foldl
        (fun m a =>
          if keptAsset filt sp a then insertBin m (parentDir a.originalPath) a.id else m) m →
      x ∈ kv.2 →
      (∃ kv' ∈ m, x ∈ kv'.2) ∨ ∃ a ∈ assets, keptAsset filt sp a = true ∧ a.id = x := by
  intro assets
  induction assets with
  | nil => intro m kv x hkv hx; exact Or.inl ⟨kv, hkv, hx⟩
  | cons a rest ih =>
    intro m kv x hkv hx
    rw [List.foldl_cons] at hkv
    rcases ih _ kv x hkv hx with hm | ⟨a', ha', hk, hid⟩
    · by_cases hkept : keptAsset filt sp a = true
      · rw [if_pos hkept] at hm
        obtain ⟨kv', hkv', hx'⟩ := hm
        rcases mem_insertBin_ids _ _ m kv' x hkv' hx' with h | ⟨kv'', hkv'', hx''⟩
        · exact Or.inr ⟨a, List.mem_cons_self _ _, hkept, h.symm⟩
        · exact Or.inl ⟨kv'', hkv'', hx''⟩
      · rw [if_neg hkept] at hm
        exact Or.inl hm
    · exact Or.inr ⟨a', List.mem_cons_of_mem _ ha', hk, hid⟩

theorem mem_insertLib_ids (k : String) (p : FsPath) (v : String) :
    ∀ (m : List (String × LibEntry)) (kv : String × LibEntry) (x : String),
    kv ∈ insertLib m k p v → x ∈ kv.2.ids →
    x = v ∨ ∃ kv' ∈ m, x ∈ kv'.2.ids := by
  intro m
  induction m with
  | nil =>
    intro kv x hkv hx
    simp only [insertLib, List.mem_singleton] at hkv
    subst hkv
    simp at hx
    exact Or.inl hx
  | cons hd rest ih =>
    intro kv x hkv hx
    by_cases hk : hd.1 = k
    · simp only [insertLib] at hkv
      rw [if_pos hk] at hkv
      simp only [List.mem_cons] at hkv
      rcases hkv with hkv | hkv
      · subst hkv
        simp only at hx
        by_cases hv : v ∈ hd.2.ids
        · rw [if_pos hv] at hx
          exact Or.inr ⟨hd, List.mem_cons_self _ _, hx⟩
        · rw [if_neg hv, List.mem_append] at hx
          rcases hx with hx | hx
          · exact Or.inr ⟨hd, List.mem_cons_self _ _, hx⟩
          · simp at hx
            exact Or.inl hx
      · exact Or.inr ⟨kv, List.mem_cons_of_mem _ hkv, hx⟩
    · simp only [insertLib] at hkv
      rw [if_neg hk] at hkv
      simp only [List.mem_cons] at hkv
      rcases hkv with hkv | hkv
      · subst hkv
        exact Or.inr ⟨hd, List.mem_cons_self _ _, hx⟩
      · rcases ih kv x hkv hx with h | ⟨kv', hkv', hx'⟩
        · exact Or.inl h
        · exact Or.inr ⟨kv', List.mem_cons_of_mem _ hkv', hx'⟩

theorem mem_libraryBins_aux (filt : List String) (sp : SkipPaths) :
    ∀ (assets : List Asset) (m : List (String × LibEntry))
      (kv : String × LibEntry) (x : String),
      kv ∈ assets.foldl
        (fun m a =>
          if keptAsset filt sp a then
            insertLib m a.libraryId (parentDir a.originalPath) a.id
          else m) m →
      x ∈ kv.2.ids →
      (∃ kv' ∈ m, x ∈ kv'.2.ids) ∨ ∃ a ∈ assets, keptAsset filt sp a = true ∧ a.id = x := by
  intro assets
  induction assets with
  | nil => intro m kv x hkv hx; exact Or.inl ⟨kv, hkv, hx⟩
  | cons a rest ih =>
    intro m kv x hkv hx
    rw [List.foldl_cons] at hkv
    rcases ih _ kv x hkv hx with hm | ⟨a', ha', hk, hid⟩
    · by_cases hkept : keptAsset filt sp a = true
      · rw [if_pos hkept] at hm
        obtain ⟨kv', hkv', hx'⟩ := hm
        rcases mem_insertLib_ids _ _ _ m kv' x hkv' hx' with h | ⟨kv'', hkv'', hx''⟩
        · exact Or.inr ⟨a, List.mem_cons_self _ _, hkept, h.symm⟩
        · exact Or.inl ⟨kv'', hkv'', hx''⟩
      · rw [if_neg hkept] at hm
        exact Or.inl hm
    · exact Or.inr ⟨a', List.mem_cons_of_mem _ ha', hk, hid⟩

/-- C3: with pairwise-distinct asset ids, an asset whose containing folder
(the immediate parent of its original path) is in the exact skip set, or
has an ancestor in the recursive skip set, contributes to no bin's member
set — in folder mode and in library mode alike. -/
theorem skipped_assets_in_no_bin (assets : List Asset) (libraries : List Library)
    (filt : List String) (sp : SkipPaths) (a : Asset)
    (hnodup : (assets.map Asset.id).Nodup)
    (ha : a ∈ assets)
    (hskip : parentDir a.originalPath ∈ sp.direct ∨
        ∃ q ∈ ancestors (parentDir a.originalPath), q ∈ sp.recursive) :
    (∀ b ∈ folderModeBins assets filt sp, a.id ∉ b.assetIds) ∧
    (∀ b ∈ libraryModeBins assets libraries filt sp, a.id ∉ b.assetIds) := by
  have hkept : ¬(keptAsset filt sp a = true) := by
    intro hk
    simp only [keptAsset, Bool.and_eq_true, Bool.not_eq_true', Bool.or_eq_false_iff] at hk
    rcases hk with ⟨-, hdir, hrec⟩
    rcases hskip with hd | ⟨q, hq, hqr⟩
    · simp at hdir
      exact hdir hd
    · rw [List.any_eq_false] at hrec
      have h2 := hrec q hq
      simp at h2
      exact h2 hqr
  have hinj := List.inj_on_of_nodup_map hnodup
  constructor
  · intro b hb hmem
    simp only [folderModeBins, List.mem_map] at hb
    obtain ⟨kv, hkv, hbeq⟩ := hb
    have hmem' : a.id ∈ kv.2 := by rw [← hbeq] at hmem; exact hmem
    rcases mem_folderBins_aux filt sp assets [] kv a.id hkv hmem' with h | ⟨a', ha', hk', hid⟩
    · simp at h
    · exact hkept (by rwa [hinj ha' ha hid] at hk')
  · intro b hb hmem
    simp only [libraryModeBins, List.mem_map] at hb
    obtain ⟨kv, hkv, hbeq⟩ := hb
    have hmem' : a.id ∈ kv.2.ids := by rw [← hbeq] at hmem; exact hmem
    rcases mem_libraryBins_aux filt sp assets [] kv a.id hkv hmem' with h | ⟨a', ha', hk', hid⟩
    · simp at h
    · exact hkept (by rwa [hinj ha' ha hid] at hk')

/-! ### Ideal-server lemmas (toolkit for the idempotence claim C2) -/

theorem findAlbum_id {s : Server} {i : Nat} {a : Album} (h : findAlbum s i = some a) :
    a.id = i := by
  have := List.find?_some h
  simpa using this

theorem findAlbum_mem {s : Server} {i : Nat} {a : Album} (h : findAlbum s i = some a) :
    a ∈ s.albums :=
  List.mem_of_find?_eq_some h

theorem exists_findAlbum_of_mem {s : Server} {i : Nat} (h : i ∈ albumIds s) :
    ∃ a, findAlbum s i = some a := by
  rcases s with ⟨albums⟩
  induction albums with
  | nil => simp [albumIds] at h
  | cons hd tl ih =>
    by_cases hi : hd.id = i
    · exact ⟨hd, by simp [findAlbum, List.find?_cons, hi]⟩
    · have h' : i ∈ albumIds ⟨tl⟩ := by
        simp only [albumIds, List.map_cons, List.mem_cons] at h
        rcases h with h | h
        · exact absurd h.symm hi
        · simpa [albumIds] using h
      obtain ⟨a, ha⟩ := ih h'
      exact ⟨a, by simpa [findAlbum, List.find?_cons, hi] using ha⟩

theorem albumIds_setMembers (s : Server) (i : Nat) (f : List String → List String) :
    albumIds (setMembers s i f) = albumIds s := by
  simp only [albumIds, setMembers, List.map_map]
  apply List.map_congr_left
  intro a _
  by_cases h : a.id = i <;> simp [h]

/-- The album-rewriting map of `setMembers`, at the list level. -/
def setMembersMap (i : Nat) (f : List String → List String) (l : List Album) : List Album :=
  l.map (fun al => if al.id = i then ⟨al.id, al.name, f al.assetIds⟩ else al)

theorem setMembers_albums (s : Server) (i : Nat) (f : List String → List String) :
    (setMembers s i f).albums = setMembersMap i f s.albums := rfl

theorem find?_setMembersMap_ne (i : Nat) (f : List String → List String) (j : Nat)
    (h : j ≠ i) :
    ∀ l : List Album,
      List.find? (fun a => a.id = j) (setMembersMap i f l)
        = List.find? (fun a => a.id = j) l := by
  intro l
  induction l with
  | nil => rfl
  | cons hd tl ih =>
    by_cases hi : hd.id = i
    · have hj : ¬(hd.id = j) := by rw [hi]; exact fun hc => h hc.symm
      rw [setMembersMap, List.map_cons, if_pos hi]
      rw [List.find?_cons_of_neg _ (by simpa using hj),
          List.find?_cons_of_neg _ (by simpa using hj)]
      exact ih
    · rw [setMembersMap, List.map_cons, if_neg hi]
      by_cases hj : hd.id = j
      · rw [List.find?_cons_of_pos _ (by simpa using hj),
            List.find?_cons_of_pos _ (by simpa using hj)]
      · rw [List.find?_cons_of_neg _ (by simpa using hj),
            List.find?_cons_of_neg _ (by simpa using hj)]
        exact ih

theorem findAlbum_setMembers_ne (s : Server) (i : Nat) (f : List String → List String)
    (j : Nat) (h : j ≠ i) :
    findAlbum (setMembers s i f) j = findAlbum s j := by
  simp only [findAlbum, setMembers_albums]
  exact find?_setMembersMap_ne i f j h s.albums

theorem find?_setMembersMap_self (i : Nat) (f : List String → List String) :
    ∀ (l : List Album) (a : Album),
      List.find? (fun al => al.id = i) l = some a →
      List.find? (fun al => al.id = i) (setMembersMap i f l)
        = some ⟨a.id, a.name, f a.assetIds⟩ := by
  intro l
  induction l with
  | nil => intro a ha; simp at ha
  | cons hd tl ih =>
    intro a ha
    by_cases hi : hd.id = i
    · rw [List.find?_cons_of_pos _ (by simpa using hi)] at ha
      cases ha
      rw [setMembersMap, List.map_cons, if_pos hi]
      exact List.find?_cons_of_pos _ (by simpa using hi)
    · rw [List.find?_cons_of_neg _ (by simpa using hi)] at ha
      rw [setMembersMap, List.map_cons, if_neg hi]
      rw [List.find?_cons_of_neg _ (by simpa using hi)]
      exact ih a ha

theorem findAlbum_setMembers_self (s : Server) (i : Nat) (f : List String → List String)
    (a : Album) (ha : findAlbum s i = some a) :
    findAlbum (setMembers s i f) i = some ⟨a.id, a.name, f a.assetIds⟩ := by
  simp only [findAlbum, setMembers_albums]
  exact find?_setMembersMap_self i f s.albums a ha

theorem setMembersMap_id (i : Nat) (f : List String → List String) (l : List Album)
    (h : ∀ al ∈ l, ¬(al.id = i)) : setMembersMap i f l = l := by
  calc setMembersMap i f l
      = l.map id := List.map_congr_left (fun al hal => by
        rw [if_neg (h al hal)]; rfl)
    _ = l := List.map_id l

theorem setMembersMap_eq_self (i : Nat) (f : List String → List String) :
    ∀ (l : List Album) (a : Album),
      (l.map Album.id).Nodup →
      List.find? (fun al => al.id = i) l = some a →
      f a.assetIds = a.assetIds →
      setMembersMap i f l = l := by
  intro l
  induction l with
  | nil => intro a _ ha _; simp at ha
  | cons hd tl ih =>
    intro a hnodup ha hf
    by_cases hi : hd.id = i
    · rw [List.find?_cons_of_pos _ (by simpa using hi)] at ha
      cases ha
      have htl : ∀ al ∈ tl, ¬(al.id = i) := by
        intro al hal hc
        simp only [List.map_cons, List.nodup_cons] at hnodup
        exact hnodup.1 (hi ▸ hc ▸ List.mem_map_of_mem Album.id hal)
      show (if hd.id = i then (⟨hd.id, hd.name, f hd.assetIds⟩ : Album) else hd)
          :: setMembersMap i f tl = hd :: tl
      rw [if_pos hi, hf, setMembersMap_id i f tl htl]
    · rw [List.find?_cons_of_neg _ (by simpa using hi)] at ha
      have hnodup' : (tl.map Album.id).Nodup := by
        simp only [List.map_cons, List.nodup_cons] at hnodup
        exact hnodup.2
      show (if hd.id = i then (⟨hd.id, hd.name, f hd.assetIds⟩ : Album) else hd)
          :: setMembersMap i f tl = hd :: tl
      rw [if_neg hi, ih a hnodup' ha hf]

theorem setMembers_eq_self (s : Server) (i : Nat) (f : List String → List String)
    (a : Album) (hnodup : (albumIds s).Nodup) (ha : findAlbum s i = some a)
    (hf : f a.assetIds = a.assetIds) :
    setMembers s i f = s := by
  rcases s with ⟨albums⟩
  simp only [setMembers, Server.mk.injEq]
  exact setMembersMap_eq_self i f albums a hnodup ha hf

theorem le_foldr_max (l : List Nat) (x : Nat) (hx : x ∈ l) : x ≤ l.foldr max 0 := by
  induction l with
  | nil => simp at hx
  | cons hd tl ih =>
    rcases List.mem_cons.mp hx with h | h
    · subst h; exact le_max_left _ _
    · exact le_trans (ih h) (le_max_right _ _)

theorem freshId_not_mem (s : Server) : freshId s ∉ albumIds s := by
  intro h
  have := le_foldr_max (s.albums.map Album.id) _ h
  simp only [freshId] at this
  omega

theorem mem_insertNew (l : List String) (x y : String) :
    y ∈ insertNew l x ↔ y ∈ l ∨ y = x := by
  by_cases h : x ∈ l
  · simp only [insertNew, if_pos h]
    constructor
    · exact Or.inl
    · rintro (hy | rfl)
      · exact hy
      · exact h
  · simp [insertNew, if_neg h]

theorem mem_addAllNew (xs : List String) :
    ∀ (l : List String) (y : String), y ∈ addAllNew l xs ↔ y ∈ l ∨ y ∈ xs := by
  induction xs with
  | nil => intro l y; simp [addAllNew]
  | cons x rest ih =>
    intro l y
    simp only [addAllNew]
    rw [ih, mem_insertNew]
    simp only [List.mem_cons]
    tauto

theorem addAllNew_eq_self (xs : List String) :
    ∀ (l : List String), (∀ x ∈ xs, x ∈ l) → addAllNew l xs = l := by
  induction xs with
  | nil => intro l _; rfl
  | cons x rest ih =>
    intro l h
    have hx : x ∈ l := h x (List.mem_cons_self _ _)
    simp only [addAllNew, insertNew, if_pos hx]
    exact ih l (fun y hy => h y (List.mem_cons_of_mem _ hy))

theorem addFlags_count_zero (xs : List String) :
    ∀ (ms : List String), (∀ x ∈ xs, x ∈ ms) → (addFlags ms xs).count true = 0 := by
  induction xs with
  | nil => intro ms _; rfl
  | cons x rest ih =>
    intro ms h
    have hx : x ∈ ms := h x (List.mem_cons_self _ _)
    simp only [addFlags, insertNew, if_pos hx]
    rw [List.count_cons]
    have : (decide (x ∉ ms)) = false := by simpa using hx
    simp only [this]
    simpa using ih ms (fun y hy => h y (List.mem_cons_of_mem _ hy))

theorem memberSet_eq {s : Server} {i : Nat} {a : Album} (ha : findAlbum s i = some a) :
    memberSet s i = a.assetIds := by
  simp [memberSet, ha]

theorem binBound_mem {loaded : Option Table} {ids0 : List Nat} {b : Bin} {aid : Nat}
    (h : binBound loaded ids0 b = some aid) : aid ∈ ids0 := by
  cases loaded with
  | none => simp [binBound] at h
  | some tbl =>
    simp only [binBound] at h
    rcases hlk : lookupKey tbl b.updateKey with _ | v
    · rw [hlk] at h; simp at h
    · rw [hlk] at h
      cases v with
      | emptyObj => simp at h
      | albumId j =>
        have h' : (if j ∈ ids0 then some j else none) = some aid := h
        by_cases hj : j ∈ ids0
        · rw [if_pos hj] at h'
          cases h'
          exact hj
        · rw [if_neg hj] at h'
          simp at h'

theorem binBound_of_lookup {tbl : Table} {ids0 : List Nat} {b : Bin} {aid : Nat}
    (h1 : lookupKey tbl b.updateKey = some (.albumId aid)) (h2 : aid ∈ ids0) :
    binBound (some tbl) ids0 b = some aid := by
  simp [binBound, h1, h2]

/-- With the current members already contained in the computed set, the
clean step of a second run is a complete no-op on the server and reports
nothing. -/
theorem cleanAlbumFn_run2 (name : String) (c : List String) (aid : Nat) (s : Server)
    (a : Album) (hnodup : (albumIds s).Nodup) (ha : findAlbum s aid = some a)
    (hsup : ∀ x ∈ a.assetIds, x ∈ c) :
    cleanAlbumFn idealRemote name c aid s
      = ⟨s, [.getAlbum aid, .removeAssets aid []], []⟩ := by
  have hrem : removalAssets a.assetIds c = [] := by
    rw [removalAssets, List.filter_eq_nil_iff]
    intro x hx
    simp only [List.mem_dedup] at hx
    simp [hsup x hx]
  have hget : idealRemote.getAlbum s aid = (s, .ok a.assetIds) := by
    simp [idealRemote, ha]
  have hsm : setMembers s aid
      (fun ms => ms.filter (fun x => decide (x ∉ ([] : List String)))) = s :=
    setMembers_eq_self s aid _ a hnodup ha
      (List.filter_eq_self.mpr (fun x _ => by simp))
  have hrm : idealRemote.removeAssets s aid ([] : List String)
      = (s, .ok (([] : List String).map (fun x => a.assetIds.contains x))) := by
    simp only [idealRemote, ha]
    rw [hsm]
  simp only [cleanAlbumFn, hget, hrem, hrm]
  simp

/-- With every computed member already in the album, the update step of a
second run leaves the server untouched and reports only "already exists"
or "already up to date". -/
theorem updateAlbumFn_run2 (args : Args) (ids1 : List Nat) (name : String)
    (c : List String) (aid : Nat) (s : Server) (a : Album)
    (hnodup : (albumIds s).Nodup) (ha : findAlbum s aid = some a)
    (hmem : aid ∈ ids1)
    (hsub : args.skipExisting = false → ∀ x ∈ c, x ∈ a.assetIds) :
    (updateAlbumFn idealRemote args ids1 name c aid s).state = s ∧
    ∀ r ∈ (updateAlbumFn idealRemote args ids1 name c aid s).reports,
      r.isQuiet = true := by
  by_cases hskip : args.skipExisting = true
  · constructor
    · simp [updateAlbumFn, hskip, hmem]
    · intro r hr
      simp only [updateAlbumFn, hskip] at hr
      simp [hmem] at hr
      simp [hr, Report.isQuiet]
  · have hskip' : args.skipExisting = false := by
      revert hskip; cases args.skipExisting <;> simp
    have hadd : idealRemote.addAssets s aid c
        = (setMembers s aid (fun ms => addAllNew ms c), .ok (addFlags a.assetIds c)) := by
      simp [idealRemote, ha]
    have hsm : setMembers s aid (fun ms => addAllNew ms c) = s :=
      setMembers_eq_self s aid _ a hnodup ha
        (addAllNew_eq_self c a.assetIds (hsub hskip'))
    have hcnt : (addFlags a.assetIds c).count true = 0 :=
      addFlags_count_zero c a.assetIds (hsub hskip')
    constructor
    · simp [updateAlbumFn, hskip', hadd, hsm, hcnt]
    · intro r hr
      simp only [updateAlbumFn, hskip'] at hr
      simp [hadd, hcnt] at hr
      simp [hr, Report.isQuiet]

/-- A bound bin whose album already covers its computed members is a
complete no-op in a second run. -/
theorem processBin_run2 (args : Args) (loaded : Option Table) (ids1 : List Nat)
    (names1 : List String) (s : Server) (out : Table) (b : Bin) (aid : Nat) (a : Album)
    (hnodup : (albumIds s).Nodup)
    (hbound : binBound loaded ids1 b = some aid)
    (ha : findAlbum s aid = some a)
    (hclean : args.cleanUpdate = true → ∀ x ∈ a.assetIds, x ∈ b.assetIds)
    (hsub : args.skipExisting = false → ∀ x ∈ b.assetIds, x ∈ a.assetIds) :
    (processBin idealRemote args loaded ids1 names1 s out b).state = s ∧
    ∀ r ∈ (processBin idealRemote args loaded ids1 names1 s out b).reports,
      r.isQuiet = true := by
  have hmem := binBound_mem hbound
  have hu := updateAlbumFn_run2 args ids1 b.albumName b.assetIds aid s a hnodup ha hmem hsub
  by_cases hcl : args.cleanUpdate = true
  · have hc := cleanAlbumFn_run2 b.albumName b.assetIds aid s a hnodup ha (hclean hcl)
    constructor
    · simp only [processBin, hbound, hcl, if_true, hc]
      exact hu.1
    · intro r hr
      simp only [processBin, hbound, hcl, if_true, hc, List.nil_append] at hr
      exact hu.2 r hr
  · have hcl' : args.cleanUpdate = false := by
      revert hcl; cases args.cleanUpdate <;> simp
    constructor
    · simp only [processBin, hbound, hcl', Bool.false_eq_true, if_false]
      exact hu.1
    · intro r hr
      simp only [processBin, hbound, hcl', Bool.false_eq_true, if_false] at hr
      rcases List.mem_append.mp hr with h | h
      · simp at h
      · exact hu.2 r h

/-- Folding a second run over bins that are all bound and already covered
leaves the server exactly unchanged and adds only quiet reports. -/
theorem runAccum_run2 (args : Args) (loaded : Option Table) (ids1 : List Nat)
    (names1 : List String) :
    ∀ (bins : List Bin) (acc : BinResult Server),
    (albumIds acc.state).Nodup →
    (∀ b ∈ bins, ∃ aid a, binBound loaded ids1 b = some aid ∧
        findAlbum acc.state aid = some a ∧
        (args.cleanUpdate = true → ∀ x ∈ a.assetIds, x ∈ b.assetIds) ∧
        (args.skipExisting = false → ∀ x ∈ b.assetIds, x ∈ a.assetIds)) →
    (runAccum idealRemote args loaded ids1 names1 acc bins).state = acc.state ∧
    ∀ r ∈ (runAccum idealRemote args loaded ids1 names1 acc bins).reports,
      r ∈ acc.reports ∨ r.isQuiet = true := by
  intro bins
  induction bins with
  | nil => intro acc _ _; exact ⟨rfl, fun r hr => Or.inl hr⟩
  | cons b rest ih =>
    intro acc hnodup hbins
    obtain ⟨aid, a, hbound, ha, hclean, hsub⟩ := hbins b (List.mem_cons_self _ _)
    have hstep := processBin_run2 args loaded ids1 names1 acc.state acc.table b aid a
      hnodup hbound ha hclean hsub
    have hstate : (stepFold idealRemote args loaded ids1 names1 acc b).state
        = acc.state := hstep.1
    have hreports : ∀ r ∈ (stepFold idealRemote args loaded ids1 names1 acc b).reports,
        r ∈ acc.reports ∨ r.isQuiet = true := by
      intro r hr
      rcases List.mem_append.mp hr with h | h
      · exact Or.inl h
      · exact Or.inr (hstep.2 r h)
    have ihh := ih (stepFold idealRemote args loaded ids1 names1 acc b)
      (by rw [hstate]; exact hnodup)
      (fun b' hb' => by
        obtain ⟨aid', a', h1, h2, h3, h4⟩ := hbins b' (List.mem_cons_of_mem _ hb')
        exact ⟨aid', a', h1, by rw [hstate]; exact h2, h3, h4⟩)
    refine ⟨?_, ?_⟩
    · show (runAccum idealRemote args loaded ids1 names1
          (stepFold idealRemote args loaded ids1 names1 acc b) rest).state = acc.state
      rw [ihh.1, hstate]
    · intro r hr
      have hr' : r ∈ (runAccum idealRemote args loaded ids1 names1
          (stepFold idealRemote args loaded ids1 names1 acc b) rest).reports := hr
      rcases ihh.2 r hr' with h | h
      · exact hreports r h
      · exact Or.inr h

theorem mem_albumIds_of_findAlbum {s : Server} {j : Nat} {a : Album}
    (h : findAlbum s j = some a) : j ∈ albumIds s :=
  findAlbum_id h ▸ List.mem_map_of_mem Album.id (findAlbum_mem h)

theorem findAlbum_append_left {s : Server} {j : Nat} (l : List Album)
    (h : j ∈ albumIds s) :
    findAlbum ⟨s.albums ++ l⟩ j = findAlbum s j := by
  obtain ⟨a, ha⟩ := exists_findAlbum_of_mem h
  simp only [findAlbum] at ha ⊢
  rw [List.find?_append, ha]
  rfl

theorem findAlbum_append_fresh {s : Server} {j : Nat} {al : Album}
    (hj : j ∉ albumIds s) (hal : al.id = j) :
    findAlbum ⟨s.albums ++ [al]⟩ j = some al := by
  have hpre : List.find? (fun a => a.id = j) s.albums = none := by
    rw [List.find?_eq_none]
    intro x hx hc
    exact hj (by
      have : x.id = j := by simpa using hc
      exact this ▸ List.mem_map_of_mem Album.id hx)
  simp only [findAlbum]
  rw [List.find?_append, hpre]
  simp [hal]

theorem mem_cleanFilter (cur cb : List String) (x : String) :
    x ∈ cur.filter (fun y => decide (y ∉ removalAssets cur cb)) ↔ x ∈ cur ∧ x ∈ cb := by
  simp only [List.mem_filter, decide_eq_true_eq, removalAssets, List.mem_dedup]
  tauto

/-- The clean step of a bound bin, on the ideal server: album `aid`'s
members are filtered down by the removal set, nothing else changes. -/
theorem cleanAlbumFn_run1_state (name : String) (c : List String) (aid : Nat)
    (s : Server) (a : Album) (ha : findAlbum s aid = some a) :
    (cleanAlbumFn idealRemote name c aid s).state
      = setMembers s aid
          (fun ms => ms.filter (fun x => decide (x ∉ removalAssets a.assetIds c))) := by
  have hget : idealRemote.getAlbum s aid = (s, .ok a.assetIds) := by
    simp [idealRemote, ha]
  have hrm : idealRemote.removeAssets s aid (removalAssets a.assetIds c)
      = (setMembers s aid
          (fun ms => ms.filter (fun x => decide (x ∉ removalAssets a.assetIds c))),
         .ok ((removalAssets a.assetIds c).map (fun x => a.assetIds.contains x))) := by
    simp [idealRemote, ha]
  simp only [cleanAlbumFn, hget, hrm]
  split <;> rfl

theorem updateAlbumFn_state_skip (args : Args) (ids0 : List Nat) (name : String)
    (c : List String) (aid : Nat) (s : Server)
    (h : (args.skipExisting && ids0.contains aid) = true) :
    (updateAlbumFn idealRemote args ids0 name c aid s).state = s := by
  have hp : args.skipExisting = true ∧ aid ∈ ids0 := by simpa using h
  simp [updateAlbumFn, hp.1, hp.2]

theorem updateAlbumFn_state_add (args : Args) (ids0 : List Nat) (name : String)
    (c : List String) (aid : Nat) (s : Server) (a : Album)
    (h : (args.skipExisting && ids0.contains aid) = false)
    (ha : findAlbum s aid = some a) :
    (updateAlbumFn idealRemote args ids0 name c aid s).state
      = setMembers s aid (fun ms => addAllNew ms c) := by
  have haa : idealRemote.addAssets s aid c
      = (setMembers s aid (fun ms => addAllNew ms c), .ok (addFlags a.assetIds c)) := by
    simp [idealRemote, ha]
  have hfalse : ¬((args.skipExisting && ids0.contains aid) = true) := by
    rw [h]
    simp
  simp only [updateAlbumFn, if_neg hfalse, haa]
  split <;> rfl

/-- What a first run does to a bound bin: the output table records the
album id over the placeholder, other albums are untouched, the album-id
list is unchanged, and album `aid` ends up covering the computed member set
as far as the active flags promise. -/
theorem processBin_run1_bound_facts (args : Args) (loaded : Option Table)
    (ids0 : List Nat) (names0 : List String) (s : Server) (out : Table) (b : Bin)
    (aid : Nat) (a : Album)
    (hbound : binBound loaded ids0 b = some aid)
    (ha : findAlbum s aid = some a) :
    albumIds (processBin idealRemote args loaded ids0 names0 s out b).state = albumIds s ∧
    (∀ j, j ≠ aid →
      findAlbum (processBin idealRemote args loaded ids0 names0 s out b).state j
        = findAlbum s j) ∧
    (processBin idealRemote args loaded ids0 names0 s out b).table
      = setKey (setKey out b.updateKey .emptyObj) b.updateKey (.albumId aid) ∧
    (args.cleanUpdate = true →
      ∀ x ∈ memberSet (processBin idealRemote args loaded ids0 names0 s out b).state aid,
        x ∈ b.assetIds) ∧
    (args.skipExisting = false →
      ∀ x ∈ b.assetIds,
        x ∈ memberSet (processBin idealRemote args loaded ids0 names0 s out b).state aid) := by
  have hmem : aid ∈ ids0 := binBound_mem hbound
  have hps : (processBin idealRemote args loaded ids0 names0 s out b).state
      = (updateAlbumFn idealRemote args ids0 b.albumName b.assetIds aid
          ((if args.cleanUpdate then cleanAlbumFn idealRemote b.albumName b.assetIds aid s
            else ⟨s, [], []⟩).state)).state := by
    simp only [processBin, hbound]
  have hpt : (processBin idealRemote args loaded ids0 names0 s out b).table
      = setKey (setKey out b.updateKey .emptyObj) b.updateKey (.albumId aid) := by
    simp only [processBin, hbound]
  by_cases hcl : args.cleanUpdate = true
  · -- clean step runs
    have hcs : (if args.cleanUpdate then cleanAlbumFn idealRemote b.albumName b.assetIds aid s
        else ⟨s, [], []⟩).state
        = setMembers s aid
            (fun ms => ms.filter (fun x => decide (x ∉ removalAssets a.assetIds b.assetIds))) := by
      rw [if_pos hcl]
      exact cleanAlbumFn_run1_state b.albumName b.assetIds aid s a ha
    have hfa1 : findAlbum (setMembers s aid
        (fun ms => ms.filter (fun x => decide (x ∉ removalAssets a.assetIds b.assetIds)))) aid
        = some ⟨a.id, a.name,
            a.assetIds.filter (fun x => decide (x ∉ removalAssets a.assetIds b.assetIds))⟩ :=
      findAlbum_setMembers_self s aid _ a ha
    by_cases hskip : args.skipExisting = true
    · -- clean, then skip the update
      have hus : (updateAlbumFn idealRemote args ids0 b.albumName b.assetIds aid
          ((if args.cleanUpdate then cleanAlbumFn idealRemote b.albumName b.assetIds aid s
            else ⟨s, [], []⟩).state)).state
          = (if args.cleanUpdate then cleanAlbumFn idealRemote b.albumName b.assetIds aid s
            else ⟨s, [], []⟩).state :=
        updateAlbumFn_state_skip args ids0 b.albumName b.assetIds aid _
          (by simp [hskip, hmem])
      rw [hps, hus, hcs]
      refine ⟨albumIds_setMembers s aid _, fun j hj =>
        findAlbum_setMembers_ne s aid _ j hj, hpt, ?_, ?_⟩
      · intro _ x hx
        rw [memberSet_eq hfa1] at hx
        exact ((mem_cleanFilter a.assetIds b.assetIds x).mp hx).2
      · intro hsf
        rw [hsf] at hskip
        simp at hskip
    · -- clean, then add
      have hskip' : args.skipExisting = false := by
        revert hskip; cases args.skipExisting <;> simp
      have hus : (updateAlbumFn idealRemote args ids0 b.albumName b.assetIds aid
          ((if args.cleanUpdate then cleanAlbumFn idealRemote b.albumName b.assetIds aid s
            else ⟨s, [], []⟩).state)).state
          = setMembers (setMembers s aid
              (fun ms => ms.filter (fun x => decide (x ∉ removalAssets a.assetIds b.assetIds))))
              aid (fun ms => addAllNew ms b.assetIds) := by
        rw [hcs]
        exact updateAlbumFn_state_add args ids0 b.albumName b.assetIds aid _ _
          (by simp [hskip']) hfa1
      have hfa2 : findAlbum (setMembers (setMembers s aid
          (fun ms => ms.filter (fun x => decide (x ∉ removalAssets a.assetIds b.assetIds))))
          aid (fun ms => addAllNew ms b.assetIds)) aid
          = some ⟨a.id, a.name,
              addAllNew (a.assetIds.filter
                (fun x => decide (x ∉ removalAssets a.assetIds b.assetIds))) b.assetIds⟩ :=
        findAlbum_setMembers_self _ aid _ _ hfa1
      rw [hps, hus]
      refine ⟨?_, ?_, hpt, ?_, ?_⟩
      · rw [albumIds_setMembers, albumIds_setMembers]
      · intro j hj
        rw [findAlbum_setMembers_ne _ aid _ j hj, findAlbum_setMembers_ne s aid _ j hj]
      · intro _ x hx
        rw [memberSet_eq hfa2] at hx
        rcases (mem_addAllNew b.assetIds _ x).mp hx with h | h
        · exact ((mem_cleanFilter a.assetIds b.assetIds x).mp h).2
        · exact h
      · intro _ x hx
        rw [memberSet_eq hfa2]
        exact (mem_addAllNew b.assetIds _ x).mpr (Or.inr hx)
  · -- no clean step
    have hcl' : args.cleanUpdate = false := by
      revert hcl; cases args.cleanUpdate <;> simp
    have hcs : (if args.cleanUpdate then cleanAlbumFn idealRemote b.albumName b.assetIds aid s
        else ⟨s, [], []⟩).state = s := by
      rw [hcl']
      simp
    by_cases hskip : args.skipExisting = true
    · have hus : (updateAlbumFn idealRemote args ids0 b.albumName b.assetIds aid
          ((if args.cleanUpdate then cleanAlbumFn idealRemote b.albumName b.assetIds aid s
            else ⟨s, [], []⟩).state)).state
          = (if args.cleanUpdate then cleanAlbumFn idealRemote b.albumName b.assetIds aid s
            else ⟨s, [], []⟩).state :=
        updateAlbumFn_state_skip args ids0 b.albumName b.assetIds aid _
          (by simp [hskip, hmem])
      rw [hps, hus, hcs]
      refine ⟨rfl, fun j _ => rfl, hpt, ?_, ?_⟩
      · intro hc
        rw [hc] at hcl'
        simp at hcl'
      · intro hsf
        rw [hsf] at hskip
        simp at hskip
    · have hskip' : args.skipExisting = false := by
        revert hskip; cases args.skipExisting <;> simp
      have hus : (updateAlbumFn idealRemote args ids0 b.albumName b.assetIds aid
          ((if args.cleanUpdate then cleanAlbumFn idealRemote b.albumName b.assetIds aid s
            else ⟨s, [], []⟩).state)).state
          = setMembers s aid (fun ms => addAllNew ms b.assetIds) := by
        rw [hcs]
        exact updateAlbumFn_state_add args ids0 b.albumName b.assetIds aid s a
          (by simp [hskip']) ha
      have hfa2 : findAlbum (setMembers s aid (fun ms => addAllNew ms b.assetIds)) aid
          = some ⟨a.id, a.name, addAllNew a.assetIds b.assetIds⟩ :=
        findAlbum_setMembers_self s aid _ a ha
      rw [hps, hus]
      refine ⟨albumIds_setMembers s aid _, fun j hj =>
        findAlbum_setMembers_ne s aid _ j hj, hpt, ?_, ?_⟩
      · intro hc
        rw [hc] at hcl'
        simp at hcl'
      · intro _ x hx
        rw [memberSet_eq hfa2]
        exact (mem_addAllNew b.assetIds _ x).mpr (Or.inr hx)

/-- What a first run does to an unbound bin with persistence configured:
a fresh album is created holding exactly the computed member set, and its
id is recorded over the placeholder. -/
theorem processBin_run1_create_facts (args : Args) (loaded : Option Table)
    (ids0 : List Nat) (names0 : List String) (s : Server) (out : Table) (b : Bin)
    (hunbound : binBound loaded ids0 b = none)
    (hjson : args.jsonConfigured = true) :
    (processBin idealRemote args loaded ids0 names0 s out b).state
      = ⟨s.albums ++ [⟨freshId s, b.albumName, addAllNew [] b.assetIds⟩]⟩ ∧
    (processBin idealRemote args loaded ids0 names0 s out b).table
      = setKey (setKey out b.updateKey .emptyObj) b.updateKey (.albumId (freshId s)) := by
  have hguard : ¬((args.skipExisting && !args.jsonConfigured
      && names0.contains b.albumName) = true) := by
    rw [hjson]
    simp
  constructor
  · simp [processBin, hunbound, createAlbumFn, hjson, idealRemote]
  · simp [processBin, hunbound, createAlbumFn, hjson, idealRemote]

/-- What a completed first run guarantees for one bin: the output table
binds the key to an existing album whose member list covers the computed
set (exactly, when clean mode ran; at least, when an update ran). -/
def GoodBin (args : Args) (s : Server) (out : Table) (b : Bin) (aid : Nat) : Prop :=
  lookupKey out b.updateKey = some (.albumId aid) ∧
  aid ∈ albumIds s ∧
  (args.cleanUpdate = true → ∀ x ∈ memberSet s aid, x ∈ b.assetIds) ∧
  (args.skipExisting = false → ∀ x ∈ b.assetIds, x ∈ memberSet s aid)

/-- The first-run induction: with persistence configured, pairwise-distinct
bin keys, distinct album ids on the server, and a mapping that binds no two
bins to the same album, the reconcile fold leaves every processed bin
`GoodBin` and preserves unrelated table entries and albums. -/
theorem runAccum_run1 (args : Args) (t0 : Table) (ids0 : List Nat)
    (names0 : List String) (hjson : args.jsonConfigured = true) :
    ∀ (bins : List Bin) (acc : BinResult Server),
    (albumIds acc.state).Nodup →
    (∀ i ∈ ids0, i ∈ albumIds acc.state) →
    (bins.map Bin.updateKey).Nodup →
    (∀ b1 ∈ bins, ∀ b2 ∈ bins, ∀ aid : Nat,
        binBound (some t0) ids0 b1 = some aid → binBound (some t0) ids0 b2 = some aid →
        b1.updateKey = b2.updateKey) →
    (albumIds (runAccum idealRemote args (some t0) ids0 names0 acc bins).state).Nodup ∧
    (∀ i ∈ ids0,
        i ∈ albumIds (runAccum idealRemote args (some t0) ids0 names0 acc bins).state) ∧
    (∀ (k : String) (aid : Nat),
        lookupKey acc.table k = some (.albumId aid) →
        aid ∈ albumIds acc.state →
        (∀ b ∈ bins, b.updateKey ≠ k) →
        (∀ b ∈ bins, ∀ aid' : Nat, binBound (some t0) ids0 b = some aid' → aid' ≠ aid) →
        lookupKey (runAccum idealRemote args (some t0) ids0 names0 acc bins).table k
            = some (.albumId aid) ∧
        findAlbum (runAccum idealRemote args (some t0) ids0 names0 acc bins).state aid
            = findAlbum acc.state aid) ∧
    (∀ b ∈ bins, ∃ aid,
        GoodBin args (runAccum idealRemote args (some t0) ids0 names0 acc bins).state
          (runAccum idealRemote args (some t0) ids0 names0 acc bins).table b aid) := by
  intro bins
  induction bins with
  | nil =>
    intro acc h1 h2 _ _
    exact ⟨h1, h2, fun k aid hk ha _ _ => ⟨hk, rfl⟩, by simp⟩
  | cons b rest ih =>
    intro acc hnodup hids0 hkeys hinj
    have hkeys' : (rest.map Bin.updateKey).Nodup := by
      simp only [List.map_cons, List.nodup_cons] at hkeys
      exact hkeys.2
    have hkeyhead : ∀ b' ∈ rest, b'.updateKey ≠ b.updateKey := by
      intro b' hb' hc
      simp only [List.map_cons, List.nodup_cons] at hkeys
      exact hkeys.1 (hc ▸ List.mem_map_of_mem Bin.updateKey hb')
    have hinj' : ∀ b1 ∈ rest, ∀ b2 ∈ rest, ∀ aid : Nat,
        binBound (some t0) ids0 b1 = some aid → binBound (some t0) ids0 b2 = some aid →
        b1.updateKey = b2.updateKey := fun b1 h1 b2 h2 =>
      hinj b1 (List.mem_cons_of_mem _ h1) b2 (List.mem_cons_of_mem _ h2)
    have hrun : runAccum idealRemote args (some t0) ids0 names0 acc (b :: rest)
        = runAccum idealRemote args (some t0) ids0 names0
            (stepFold idealRemote args (some t0) ids0 names0 acc b) rest := rfl
    rcases hb : binBound (some t0) ids0 b with _ | aid
    · -- create path
      have hcf := processBin_run1_create_facts args (some t0) ids0 names0
        acc.state acc.table b hb hjson
      have hstate1 : (stepFold idealRemote args (some t0) ids0 names0 acc b).state
          = ⟨acc.state.albums ++
              [⟨freshId acc.state, b.albumName, addAllNew [] b.assetIds⟩]⟩ := hcf.1
      have htable1 : (stepFold idealRemote args (some t0) ids0 names0 acc b).table
          = setKey (setKey acc.table b.updateKey .emptyObj) b.updateKey
              (.albumId (freshId acc.state)) := hcf.2
      have hids1 : albumIds (stepFold idealRemote args (some t0) ids0 names0 acc b).state
          = albumIds acc.state ++ [freshId acc.state] := by
        rw [hstate1]
        simp [albumIds]
      have hnodup1 : (albumIds
          (stepFold idealRemote args (some t0) ids0 names0 acc b).state).Nodup := by
        rw [hids1]
        simp only [List.nodup_append, List.nodup_cons, List.not_mem_nil,
          not_false_iff, List.nodup_nil, and_true, true_and]
        constructor
        · exact hnodup
        · intro x hx hx'
          simp only [List.mem_singleton] at hx'
          exact freshId_not_mem acc.state (hx' ▸ hx)
      have hids01 : ∀ i ∈ ids0,
          i ∈ albumIds (stepFold idealRemote args (some t0) ids0 names0 acc b).state := by
        intro i hi
        rw [hids1]
        exact List.mem_append_left _ (hids0 i hi)
      have ihh := ih (stepFold idealRemote args (some t0) ids0 names0 acc b)
        hnodup1 hids01 hkeys' hinj'
      have hpres1 : ∀ (j : Nat), j ∈ albumIds acc.state →
          findAlbum (stepFold idealRemote args (some t0) ids0 names0 acc b).state j
            = findAlbum acc.state j := by
        intro j hj
        rw [hstate1]
        exact findAlbum_append_left _ hj
      refine ⟨by rw [hrun]; exact ihh.1, by rw [hrun]; exact ihh.2.1, ?_, ?_⟩
      · -- preservation through create
        intro k aid' hk ha' hkne hane
        have hk1 : lookupKey (stepFold idealRemote args (some t0) ids0 names0 acc b).table k
            = some (.albumId aid') := by
          rw [htable1,
            lookupKey_setKey_ne _ _ _ _ (hkne b (List.mem_cons_self _ _)).symm,
            lookupKey_setKey_ne _ _ _ _ (hkne b (List.mem_cons_self _ _)).symm]
          exact hk
        have ha1 : aid' ∈ albumIds
            (stepFold idealRemote args (some t0) ids0 names0 acc b).state := by
          rw [hids1]
          exact List.mem_append_left _ ha'
        have hp := ihh.2.2.1 k aid' hk1 ha1
          (fun b' hb' => hkne b' (List.mem_cons_of_mem _ hb'))
          (fun b' hb' => hane b' (List.mem_cons_of_mem _ hb'))
        rw [hrun]
        exact ⟨hp.1, hp.2.trans (hpres1 aid' ha')⟩
      · -- goodness
        intro b' hb'
        rcases List.mem_cons.mp hb' with hb'' | hb''
        · -- the head bin, just created
          rw [hb'']
          have hfa : findAlbum (stepFold idealRemote args (some t0) ids0 names0 acc b).state
              (freshId acc.state)
              = some ⟨freshId acc.state, b.albumName, addAllNew [] b.assetIds⟩ := by
            rw [hstate1]
            exact findAlbum_append_fresh (freshId_not_mem acc.state) rfl
          have hk1 : lookupKey
              (stepFold idealRemote args (some t0) ids0 names0 acc b).table b.updateKey
              = some (.albumId (freshId acc.state)) := by
            rw [htable1]
            exact lookupKey_setKey_self _ _ _
          have hp := ihh.2.2.1 b.updateKey (freshId acc.state) hk1
            (mem_albumIds_of_findAlbum hfa)
            (fun b2 hb2 => hkeyhead b2 hb2)
            (fun b2 hb2 aid2 hbb2 => by
              intro hc
              have h2 : aid2 ∈ ids0 := binBound_mem hbb2
              exact freshId_not_mem acc.state (hc ▸ hids0 aid2 h2))
          rw [hrun]
          refine ⟨freshId acc.state, hp.1, ?_, ?_, ?_⟩
          · exact mem_albumIds_of_findAlbum (hp.2.trans hfa)
          · intro _ x hx
            rw [memberSet_eq (hp.2.trans hfa)] at hx
            rcases (mem_addAllNew b.assetIds [] x).mp hx with h | h
            · simp at h
            · exact h
          · intro _ x hx
            rw [memberSet_eq (hp.2.trans hfa)]
            exact (mem_addAllNew b.assetIds [] x).mpr (Or.inr hx)
        · rw [hrun]
          exact ihh.2.2.2 b' hb''
    · -- bound path
      have hmem : aid ∈ ids0 := binBound_mem hb
      obtain ⟨a, ha⟩ := exists_findAlbum_of_mem (hids0 aid hmem)
      have hbf := processBin_run1_bound_facts args (some t0) ids0 names0
        acc.state acc.table b aid a hb ha
      have hids1 : albumIds (stepFold idealRemote args (some t0) ids0 names0 acc b).state
          = albumIds acc.state := hbf.1
      have hfne : ∀ j, j ≠ aid →
          findAlbum (stepFold idealRemote args (some t0) ids0 names0 acc b).state j
            = findAlbum acc.state j := hbf.2.1
      have htable1 : (stepFold idealRemote args (some t0) ids0 names0 acc b).table
          = setKey (setKey acc.table b.updateKey .emptyObj) b.updateKey
              (.albumId aid) := hbf.2.2.1
      have hnodup1 : (albumIds
          (stepFold idealRemote args (some t0) ids0 names0 acc b).state).Nodup := by
        rw [hids1]; exact hnodup
      have hids01 : ∀ i ∈ ids0,
          i ∈ albumIds (stepFold idealRemote args (some t0) ids0 names0 acc b).state := by
        intro i hi; rw [hids1]; exact hids0 i hi
      have ihh := ih (stepFold idealRemote args (some t0) ids0 names0 acc b)
        hnodup1 hids01 hkeys' hinj'
      refine ⟨by rw [hrun]; exact ihh.1, by rw [hrun]; exact ihh.2.1, ?_, ?_⟩
      · intro k aid' hk ha' hkne hane
        have hanehead : aid' ≠ aid := by
          intro hc
          exact hane b (List.mem_cons_self _ _) aid hb hc.symm
        have hk1 : lookupKey (stepFold idealRemote args (some t0) ids0 names0 acc b).table k
            = some (.albumId aid') := by
          rw [htable1,
            lookupKey_setKey_ne _ _ _ _ (hkne b (List.mem_cons_self _ _)).symm,
            lookupKey_setKey_ne _ _ _ _ (hkne b (List.mem_cons_self _ _)).symm]
          exact hk
        have ha1 : aid' ∈ albumIds
            (stepFold idealRemote args (some t0) ids0 names0 acc b).state := by
          rw [hids1]; exact ha'
        have hp := ihh.2.2.1 k aid' hk1 ha1
          (fun b' hb' => hkne b' (List.mem_cons_of_mem _ hb'))
          (fun b' hb' => hane b' (List.mem_cons_of_mem _ hb'))
        rw [hrun]
        exact ⟨hp.1, hp.2.trans (hfne aid' hanehead)⟩
      · intro b' hb'
        rcases List.mem_cons.mp hb' with hb'' | hb''
        · rw [hb'']
          have hk1 : lookupKey
              (stepFold idealRemote args (some t0) ids0 names0 acc b).table b.updateKey
              = some (.albumId aid) := by
            rw [htable1]
            exact lookupKey_setKey_self _ _ _
          have ha1 : aid ∈ albumIds
              (stepFold idealRemote args (some t0) ids0 names0 acc b).state := by
            rw [hids1]; exact hids0 aid hmem
          have hane2 : ∀ b2 ∈ rest, ∀ aid2 : Nat,
              binBound (some t0) ids0 b2 = some aid2 → aid2 ≠ aid := by
            intro b2 hb2 aid2 hbb2 hc
            exact hkeyhead b2 hb2
              (hinj b2 (List.mem_cons_of_mem _ hb2) b (List.mem_cons_self _ _) aid
                (hc ▸ hbb2) hb)
          have hp := ihh.2.2.1 b.updateKey aid hk1 ha1
            (fun b2 hb2 => hkeyhead b2 hb2) hane2
          rw [hrun]
          obtain ⟨a1, ha1'⟩ := exists_findAlbum_of_mem ha1
          refine ⟨aid, hp.1, ?_, ?_, ?_⟩
          · exact mem_albumIds_of_findAlbum (hp.2.trans ha1')
          · intro hcl x hx
            rw [memberSet_eq (hp.2.trans ha1')] at hx
            have hmm : ∀ y ∈ memberSet
                (stepFold idealRemote args (some t0) ids0 names0 acc b).state aid,
                y ∈ b.assetIds := hbf.2.2.2.1 hcl
            rw [memberSet_eq ha1'] at hmm
            exact hmm x hx
          · intro hskip x hx
            rw [memberSet_eq (hp.2.trans ha1')]
            have hmm : ∀ y ∈ b.assetIds, y ∈ memberSet
                (stepFold idealRemote args (some t0) ids0 names0 acc b).state aid :=
              hbf.2.2.2.2 hskip
            rw [memberSet_eq ha1'] at hmm
            exact hmm x hx
        · rw [hrun]
          exact ihh.2.2.2 b' hb''

theorem quiet_report_facts (r : Report) (h : r.isQuiet = true) :
    r.isCreated = false ∧ r.isAdded = false := by
  cases r <;> simp [Report.isQuiet] at h ⊢ <;> simp [Report.isCreated, Report.isAdded]

/-- C2 counterexample: with clean mode on and a persisted mapping that binds
two bins to the same album, a second run with unchanged remote state and
mapping still reports a non-trivial "Added 1" update — idempotence fails as
universally stated. -/
theorem second_run_counterexample_shared_album_id :
    Report.addedAssets 1 "X" ∈
      (runIdeal ⟨true, true, false⟩
        (some (runIdeal ⟨true, true, false⟩
          (some [("k1", .albumId 5), ("k2", .albumId 5)])
          [⟨"k1", "X", ["a"]⟩, ⟨"k2", "X", ["b"]⟩] ⟨[⟨5, "X", []⟩]⟩).table)
        [⟨"k1", "X", ["a"]⟩, ⟨"k2", "X", ["b"]⟩]
        (runIdeal ⟨true, true, false⟩
          (some [("k1", .albumId 5), ("k2", .albumId 5)])
          [⟨"k1", "X", ["a"]⟩, ⟨"k2", "X", ["b"]⟩] ⟨[⟨5, "X", []⟩]⟩).state).reports := by
  decide

/-- C2 amended: with persistence configured, distinct album ids on the
server, pairwise-distinct bin keys, and no two bins bound to the same album
id by the persisted mapping, re-running reconciliation with the remote
state and mapping left by the first run changes nothing: the server state
is exactly unchanged (so no album is created a second time and no
membership changes) and every report of the second run is a quiet one —
"already exists" under skip-existing, otherwise "already up to date"
(zero per-member add successes). -/
theorem second_run_is_noop_of_injective_mapping (args : Args) (t0 : Table)
    (bins : List Bin) (s0 : Server)
    (hjson : args.jsonConfigured = true)
    (hsnodup : (albumIds s0).Nodup)
    (hkeys : (bins.map Bin.updateKey).Nodup)
    (hinj : ∀ b1 ∈ bins, ∀ b2 ∈ bins, ∀ aid : Nat,
        binBound (some t0) (albumIds s0) b1 = some aid →
        binBound (some t0) (albumIds s0) b2 = some aid →
        b1.updateKey = b2.updateKey) :
    (runIdeal args (some (runIdeal args (some t0) bins s0).table) bins
        (runIdeal args (some t0) bins s0).state).state
      = (runIdeal args (some t0) bins s0).state ∧
    (∀ rep ∈ (runIdeal args (some (runIdeal args (some t0) bins s0).table) bins
        (runIdeal args (some t0) bins s0).state).reports,
      rep.isQuiet = true) ∧
    (∀ rep ∈ (runIdeal args (some (runIdeal args (some t0) bins s0).table) bins
        (runIdeal args (some t0) bins s0).state).reports,
      rep.isCreated = false ∧ rep.isAdded = false) := by
  have h1 := runAccum_run1 args t0 (albumIds s0) (albumNames s0) hjson bins
    (⟨s0, t0, [], []⟩ : BinResult Server) hsnodup (fun i hi => hi) hkeys hinj
  have hgood : ∀ b ∈ bins, ∃ aid,
      GoodBin args (runIdeal args (some t0) bins s0).state
        (runIdeal args (some t0) bins s0).table b aid := h1.2.2.2
  have hnodup1 : (albumIds (runIdeal args (some t0) bins s0).state).Nodup := h1.1
  have h2 := runAccum_run2 args (some (runIdeal args (some t0) bins s0).table)
    (albumIds (runIdeal args (some t0) bins s0).state)
    (albumNames (runIdeal args (some t0) bins s0).state) bins
    (⟨(runIdeal args (some t0) bins s0).state,
      (runIdeal args (some t0) bins s0).table, [], []⟩ : BinResult Server)
    hnodup1
    (by
      intro b hb
      obtain ⟨aid, hlk, hmem, hcl, hsk⟩ := hgood b hb
      obtain ⟨a, ha⟩ := exists_findAlbum_of_mem hmem
      refine ⟨aid, a, binBound_of_lookup hlk hmem, ha, ?_, ?_⟩
      · intro hc x hx
        have := hcl hc
        rw [memberSet_eq ha] at this
        exact this x hx
      · intro hs x hx
        have := hsk hs x hx
        rw [memberSet_eq ha] at this
        exact this)
  refine ⟨h2.1, ?_, ?_⟩
  · intro rep hrep
    rcases h2.2 rep hrep with h | h
    · simp at h
    · exact h
  · intro rep hrep
    rcases h2.2 rep hrep with h | h
    · simp at h
    · exact quiet_report_facts rep h

/-- C2 amended witness. -/
theorem second_run_is_noop_witness :
    (runIdeal ⟨true, false, false⟩
        (some (runIdeal ⟨true, false, false⟩ (some []) [⟨"k", "A", ["x"]⟩] ⟨[]⟩).table)
        [⟨"k", "A", ["x"]⟩]
        (runIdeal ⟨true, false, false⟩ (some []) [⟨"k", "A", ["x"]⟩] ⟨[]⟩).state).state
      = (runIdeal ⟨true, false, false⟩ (some []) [⟨"k", "A", ["x"]⟩] ⟨[]⟩).state :=
  (second_run_is_noop_of_injective_mapping ⟨true, false, false⟩ []
    [⟨"k", "A", ["x"]⟩] ⟨[]⟩ rfl (by simp [albumIds]) (by simp)
    (by
      intro b1 hb1 b2 hb2 aid hc1 hc2
      simp [binBound, lookupKey] at hc1)).1

/-- C3 witness: a concrete excluded asset's id appears in no bin. -/
theorem skipped_assets_in_no_bin_witness :
    ("s1" : String) ∉ (Bin.mk "/keep" "keep" ["k1"]).assetIds ∧
    ("s1" : String) ∉ (Bin.mk "L1" "Lib" ["k1"]).assetIds :=
  ⟨(skipped_assets_in_no_bin
      [⟨"s1", "L1", ["skipped", "x.jpg"]⟩, ⟨"k1", "L1", ["keep", "y.jpg"]⟩]
      [⟨"L1", "Lib"⟩] ["L1"] ⟨[["skipped"]], []⟩ ⟨"s1", "L1", ["skipped", "x.jpg"]⟩
      (by decide) (by decide) (Or.inl (by decide))).1
      ⟨"/keep", "keep", ["k1"]⟩ (by decide),
   (skipped_assets_in_no_bin
      [⟨"s1", "L1", ["skipped", "x.jpg"]⟩, ⟨"k1", "L1", ["keep", "y.jpg"]⟩]
      [⟨"L1", "Lib"⟩] ["L1"] ⟨[["skipped"]], []⟩ ⟨"s1", "L1", ["skipped", "x.jpg"]⟩
      (by decide) (by decide) (Or.inl (by decide))).2
      ⟨"L1", "Lib", ["k1"]⟩ (by decide)⟩

end ImmichSync
